import Mathlib

/-!
Verification development for the ticket-ai repository: a shallow embedding of
the classification-and-agent core (categories, team routing, keyword fallback
classification, retrying classification, ticket actions, the orchestrator event
stream) together with the frontend authentication predicates and the streaming
consumer, and theorems settling the specified properties.

The backend Python services (elsai_service, ticket routes, AI agent routes) are
not present in the source tree; definitions for them are modelled from the
spec, as marked in their doc comments. Frontend JavaScript (auth.js, App.jsx,
AIAgent.jsx) is embedded directly from the source.
-/

/-- The four fixed ticket categories (spec section 3, FEATURES_SUMMARY
"Classification Categories"). -/
inductive Category where
  | billing
  | technical
  | delivery
  | general
deriving DecidableEq, Repr

/-- The four routing teams (README "Ticket Routing Logic"). -/
inductive Team where
  | BillingTeam
  | TechSupport
  | DeliveryTeam
  | GeneralSupport
deriving DecidableEq, Repr

/-- Modelled from the spec: the backend team-routing mapping
(services code absent from the source tree; mapping documented in README
"Ticket Routing Logic" and spec section 4.1). -/
def TeamRouter.route : Category → Team
  | Category.billing => Team.BillingTeam
  | Category.technical => Team.TechSupport
  | Category.delivery => Team.DeliveryTeam
  | Category.general => Team.GeneralSupport

/-- Origin of a classification result (spec section 3). -/
inductive Source where
  | model
  | fallback
deriving DecidableEq, Repr

/-- A classification result (spec section 3): a category, a confidence score
and the source that produced it. -/
structure ClassificationResult where
  category : Category
  confidence : ℚ
  source : Source
deriving DecidableEq, Repr

/-- Does the pattern `p` occur at the head of `s`? -/
def startsWithL : List Char → List Char → Bool
  | [], _ => true
  | _ :: _, [] => false
  | p :: ps, c :: cs => p == c && startsWithL ps cs

/-- Does the pattern `p` occur as a contiguous substring of `s`? -/
def containsSub (p : List Char) : List Char → Bool
  | [] => p.isEmpty
  | c :: cs => startsWithL p (c :: cs) || containsSub p cs

/-- Lower-case a character list. -/
def lowerL (s : List Char) : List Char := s.map Char.toLower

/-- Modelled from the spec: the keyword set of each category used by the
backend keyword fallback classifier (services code absent from the source
tree; keyword lists documented in FEATURES_SUMMARY "Classification
Categories"). -/
def keywordsFor : Category → List String
  | Category.billing =>
      ["payment", "invoice", "charge", "refund", "billing", "account",
       "subscription", "fee"]
  | Category.technical =>
      ["error", "bug", "issue", "problem", "technical", "software",
       "hardware", "login", "access"]
  | Category.delivery =>
      ["shipping", "delivery", "order", "tracking", "package", "shipment",
       "arrive"]
  | Category.general =>
      ["inquiry", "question", "help", "information", "support"]

/-- Modelled from the spec: the fallback score of a category on an input text
counts its keywords that occur as case-insensitive substrings of the text
(spec section 4.1). -/
def score (text : String) (c : Category) : ℕ :=
  ((keywordsFor c).filter
    (fun kw => containsSub (lowerL kw.data) (lowerL text.data))).length

/-- Modelled from the spec: the category chosen by the keyword fallback
classifier: the category with the strictly highest score wins, and ties
(including the all-zero case) resolve to general (spec section 4.1). -/
def kfCategory (text : String) : Category :=
  if score text Category.technical < score text Category.billing ∧
     score text Category.delivery < score text Category.billing ∧
     score text Category.general < score text Category.billing then
    Category.billing
  else if score text Category.billing < score text Category.technical ∧
          score text Category.delivery < score text Category.technical ∧
          score text Category.general < score text Category.technical then
    Category.technical
  else if score text Category.billing < score text Category.delivery ∧
          score text Category.technical < score text Category.delivery ∧
          score text Category.general < score text Category.delivery then
    Category.delivery
  else
    Category.general

/-- Modelled from the spec: the keyword fallback classifier attaches the fixed
confidence 0.5 and the fallback source to the winning category
(spec section 4.1). -/
def KeywordFallbackClassifier.classify (text : String) : ClassificationResult :=
  { category := kfCategory text, confidence := 1/2, source := Source.fallback }

/-- Modelled from the spec: the outcome of one call to the external
model-classification capability (spec sections 4.1 and 6): either a label with
a numeric confidence, or one of the two typed failures. -/
inductive ModelOutcome where
  | success (label : Category) (confidence : ℚ)
  | rateLimited
  | modelError
deriving DecidableEq, Repr

/-- Modelled from the spec: the inter-attempt backoff delay before retry
number `i` (0-based): the base delay doubled each attempt, with a cap
(spec section 4.1). -/
def retryDelay (base cap : ℕ) (i : ℕ) : ℕ := min (base * 2 ^ i) cap

/-- The observable outcome of one `RetryingClassifier.classify` invocation:
the classification result, how many model attempts were made, and the list of
inter-attempt delays waited, in order. -/
structure RetryOutcome where
  result : ClassificationResult
  attemptsMade : ℕ
  delays : List ℕ
deriving DecidableEq, Repr

/-- Modelled from the spec: the retry loop of `RetryingClassifier.classify`
(spec section 4.1). `oracle i` is the outcome of the `i`-th model attempt;
`rem` is the number of attempts still allowed, `idx` the number already made,
`ds` the delays waited so far (most recent first). On success the model result
is returned with the model source; on a model error the loop stops at once and
falls back; on a rate limit with attempts remaining it waits the next backoff
delay and retries; when attempts are exhausted it falls back. -/
def retryAux (oracle : ℕ → ModelOutcome) (text : String) (base cap : ℕ) :
    ℕ → ℕ → List ℕ → RetryOutcome
  | 0, idx, ds =>
      ⟨KeywordFallbackClassifier.classify text, idx, ds.reverse⟩
  | rem + 1, idx, ds =>
      match oracle idx with
      | ModelOutcome.success lab conf =>
          ⟨⟨lab, conf, Source.model⟩, idx + 1, ds.reverse⟩
      | ModelOutcome.modelError =>
          ⟨KeywordFallbackClassifier.classify text, idx + 1, ds.reverse⟩
      | ModelOutcome.rateLimited =>
          match rem with
          | 0 => ⟨KeywordFallbackClassifier.classify text, idx + 1, ds.reverse⟩
          | _ + 1 =>
              retryAux oracle text base cap rem (idx + 1)
                (retryDelay base cap ds.length :: ds)

/-- Modelled from the spec: `RetryingClassifier.classify` with an explicit
maximum attempt count, base delay and delay cap (spec section 4.1). -/
def RetryingClassifier.classify (oracle : ℕ → ModelOutcome) (text : String)
    (maxAttempts base cap : ℕ) : RetryOutcome :=
  retryAux oracle text base cap maxAttempts 0 []

/-- Modelled from the spec: the retrying classifier at the configuration
defaults the spec prescribes (3 attempts, base delay 1 s, cap 8 s;
spec section 9). -/
def classifyDefault (oracle : ℕ → ModelOutcome) (text : String) : RetryOutcome :=
  RetryingClassifier.classify oracle text 3 1 8

/-- Ticket status (spec section 3, Dashboard and README status lists). -/
inductive Status where
  | pending
  | in_progress
  | resolved
  | closed
deriving DecidableEq, Repr

/-- The ticket fields the core reads and writes (spec section 3). -/
structure Ticket where
  id : ℕ
  category : Category
  status : Status
  assignedTeam : Team
  confidence : ℚ
  message : String
deriving DecidableEq, Repr

/-- Typed action failures (spec sections 4.3 and 7). -/
inductive ActionError where
  | NotFound
  | InvalidTransition
deriving DecidableEq, Repr

/-- Look a ticket up by id in the ticket store. -/
def findTicket (store : List Ticket) (id : ℕ) : Option Ticket :=
  store.find? (fun t => t.id == id)

/-- Replace the ticket with the given id in the store. -/
def putTicket (store : List Ticket) (id : ℕ) (t : Ticket) : List Ticket :=
  store.map (fun u => if u.id == id then t else u)

/-- Modelled from the spec: the `reopen_ticket` action of the ActionExecutor
(spec section 4.3): precondition status resolved or closed, effect status
becomes pending; otherwise `InvalidTransition` and the store is returned
untouched. The pair is the post-state of the store together with the outcome. -/
def reopenTicket (store : List Ticket) (id : ℕ) :
    List Ticket × Except ActionError Ticket :=
  match findTicket store id with
  | none => (store, Except.error ActionError.NotFound)
  | some t =>
      if t.status = Status.resolved ∨ t.status = Status.closed then
        let t' := { t with status := Status.pending }
        (putTicket store id t', Except.ok t')
      else
        (store, Except.error ActionError.InvalidTransition)

/-- Modelled from the spec: the `update_category` action of the ActionExecutor
(spec section 4.3): set the new category, recompute the assigned team via
TeamRouter, and reset the status to pending regardless of the prior status;
`NotFound` when the ticket id is unknown. -/
def updateCategory (store : List Ticket) (id : ℕ) (newCat : Category) :
    List Ticket × Except ActionError Ticket :=
  match findTicket store id with
  | none => (store, Except.error ActionError.NotFound)
  | some t =>
      let t' := { t with category := newCat,
                         status := Status.pending,
                         assignedTeam := TeamRouter.route newCat }
      (putTicket store id t', Except.ok t')

/-- Modelled from the spec: the `create_ticket` action of the ActionExecutor
(spec section 4.3): classify the message via the retrying classifier and
insert a new pending ticket with category, team and confidence from the
result. -/
def createTicket (store : List Ticket) (newId : ℕ)
    (oracle : ℕ → ModelOutcome) (message : String) :
    List Ticket × Ticket :=
  let r := (classifyDefault oracle message).result
  let t : Ticket :=
    { id := newId, category := r.category, status := Status.pending,
      assignedTeam := TeamRouter.route r.category,
      confidence := r.confidence, message := message }
  (store ++ [t], t)

/-- The kind of a performed action (spec section 3, AIAgent action badge). -/
inductive ActionKind where
  | create_ticket
  | update_category
  | reopen_ticket
deriving DecidableEq, Repr

/-- An action record attached to an assistant message: the kind and the id of
the ticket affected (spec section 3). -/
structure ActionRecord where
  kind : ActionKind
  ticketId : ℕ
deriving DecidableEq, Repr

/-- Modelled from the spec: the intent resolved from the user utterance and
the pending tickets (spec section 4.4); ambiguous input resolves to
general chat upstream of this type. -/
inductive Intent where
  | create_ticket (message : String)
  | update_category (ticketId : ℕ) (newCat : Category)
  | reopen_ticket (ticketId : ℕ)
  | status_query (ticketId : ℕ)
  | general_chat
deriving DecidableEq, Repr

/-- A streamed record of the agent wire contract (spec section 6). -/
inductive Event where
  | status (message : String)
  | complete (response : String) (sessionId : ℕ) (action : Option ActionRecord)
  | error (message : String)
deriving DecidableEq, Repr

/-- Is the record a terminal one (complete or error)? -/
def Event.isTerminal : Event → Bool
  | Event.status _ => false
  | Event.complete _ _ _ => true
  | Event.error _ => true

/-- Is the record a complete record? -/
def Event.isComplete : Event → Bool
  | Event.complete _ _ _ => true
  | _ => false

/-- Is the record an error record? -/
def Event.isError : Event → Bool
  | Event.error _ => true
  | _ => false

/-- The observable outcome of one `handle` invocation: the emitted event
stream, the post-state of the ticket store, and whether a ticket-store write
was performed. -/
structure HandleResult where
  events : List Event
  store : List Ticket
  wrote : Bool
deriving DecidableEq, Repr

/-- A human-readable message for an action error. -/
def errorText : ActionError → String
  | ActionError.NotFound => "Ticket not found"
  | ActionError.InvalidTransition => "Ticket is not eligible for reopening"

/-- Modelled from the spec: one `AgentOrchestrator.handle` invocation
(spec section 4.4) for a resolved intent: emit zero or more status events,
execute the intent against the ticket store, and emit exactly one terminal
event, attaching an action record exactly when a ticket mutation was
performed. -/
def handle (store : List Ticket) (sessionId newId : ℕ)
    (oracle : ℕ → ModelOutcome) (intent : Intent) : HandleResult :=
  match intent with
  | Intent.general_chat =>
      ⟨[Event.complete "How can I help you with your tickets?" sessionId none],
       store, false⟩
  | Intent.status_query id =>
      match findTicket store id with
      | none =>
          ⟨[Event.status "Looking up ticket...",
            Event.error (errorText ActionError.NotFound)], store, false⟩
      | some t =>
          ⟨[Event.status "Looking up ticket...",
            Event.complete ("Ticket #" ++ toString t.id ++ " status summary")
              sessionId none], store, false⟩
  | Intent.create_ticket msg =>
      let (store', t) := createTicket store newId oracle msg
      ⟨[Event.status "Classifying message...",
        Event.status "Creating ticket...",
        Event.complete ("Created ticket #" ++ toString t.id) sessionId
          (some ⟨ActionKind.create_ticket, t.id⟩)], store', true⟩
  | Intent.update_category id c =>
      let (store', out) := updateCategory store id c
      match out with
      | Except.ok t' =>
          ⟨[Event.status "Updating ticket...",
            Event.complete ("Updated ticket #" ++ toString t'.id) sessionId
              (some ⟨ActionKind.update_category, t'.id⟩)], store', true⟩
      | Except.error e =>
          ⟨[Event.status "Updating ticket...", Event.error (errorText e)],
           store, false⟩
  | Intent.reopen_ticket id =>
      let (store', out) := reopenTicket store id
      match out with
      | Except.ok t' =>
          ⟨[Event.status "Reopening ticket...",
            Event.complete ("Reopened ticket #" ++ toString t'.id) sessionId
              (some ⟨ActionKind.reopen_ticket, t'.id⟩)], store', true⟩
      | Except.error e =>
          ⟨[Event.status "Reopening ticket...", Event.error (errorText e)],
           store, false⟩

/-- The action record carried by the terminal complete event of a handle
result, if any. -/
def actionOf (r : HandleResult) : Option ActionRecord :=
  (r.events.filterMap (fun e =>
    match e with
    | Event.complete _ _ a => a
    | _ => none)).head?

/-- The stored user object, as persisted in browser local storage by auth.js
(only the role field matters to the role predicates). -/
structure StoredUser where
  role : String
deriving DecidableEq, Repr

/-- The browser local-storage state read by auth.js: the token item and the
parsed user item, each possibly absent. -/
structure BrowserStorage where
  token : Option String
  user : Option StoredUser
deriving DecidableEq, Repr

/-- auth.js `getToken`: `localStorage.getItem` of the token item. -/
def getToken (st : BrowserStorage) : Option String := st.token

/-- auth.js `getCurrentUser`: the parsed user item, or null when absent. -/
def getCurrentUser (st : BrowserStorage) : Option StoredUser := st.user

/-- auth.js `isAuthenticated`: `!!getToken()`; in JavaScript both a missing
item (null) and an empty string are falsy. -/
def isAuthenticated (st : BrowserStorage) : Bool :=
  match getToken st with
  | none => false
  | some s => !s.isEmpty

/-- auth.js `isAdmin`: the stored user role compared with the admin role. -/
def isAdmin (st : BrowserStorage) : Bool :=
  match getCurrentUser st with
  | none => false
  | some u => u.role == "admin"

/-- auth.js `isCustomer`: the stored user role compared with the customer
role. -/
def isCustomer (st : BrowserStorage) : Bool :=
  match getCurrentUser st with
  | none => false
  | some u => u.role == "customer"

/-- What a ProtectedRoute renders. -/
inductive RouteOutcome where
  | redirectLogin
  | redirectCustomerChat
  | child
deriving DecidableEq, Repr

/-- App.jsx `ProtectedRoute`: redirect to the login page when not
authenticated, redirect admins-only routes to the customer chat for
non-admins, and otherwise render the protected child. -/
def protectedRoute (st : BrowserStorage) (requireAdmin : Bool) : RouteOutcome :=
  if !(isAuthenticated st) then RouteOutcome.redirectLogin
  else if requireAdmin && !(isAdmin st) then RouteOutcome.redirectCustomerChat
  else RouteOutcome.child

/-- Split a character list at newline characters, keeping every segment: the
embedding of the JavaScript `buffer.split(newline)` in AIAgent.jsx
`sendMessage`. The result is always nonempty and its last element is the text
after the last newline. -/
def splitNL : List Char → List (List Char)
  | [] => [[]]
  | c :: cs =>
      if c = '\n' then [] :: splitNL cs
      else (c :: (splitNL cs).headD []) :: (splitNL cs).tail

/-- The SSE line marker of AIAgent.jsx `sendMessage`. -/
def dataMarker : List Char := "data: ".data

/-- AIAgent.jsx `sendMessage` per-line handling: a line is acted on only when
it begins with the data marker, in which case its payload (the line after the
6-character marker) is given to the JSON parse-and-dispatch step, abstracted
as a partial function `parse`; a payload that fails to parse yields nothing
and the loop continues. -/
def handleLine {α : Type} (parse : List Char → Option α) (line : List Char) :
    Option α :=
  if startsWithL dataMarker line then parse (line.drop 6) else none

/-- AIAgent.jsx `sendMessage` per-chunk step: append the chunk to the buffer,
split at newlines, keep the trailing (possibly incomplete) segment as the new
buffer, and handle each complete line in order. The state is the buffer
together with the outputs produced so far. -/
def processChunk {α : Type} (parse : List Char → Option α)
    (st : List Char × List α) (chunk : List Char) : List Char × List α :=
  let ls := splitNL (st.1 ++ chunk)
  (ls.getLastD [], st.2 ++ ls.dropLast.filterMap (handleLine parse))

/-- AIAgent.jsx `sendMessage` read loop over a whole sequence of received
chunks, starting from an empty buffer. -/
def processStream {α : Type} (parse : List Char → Option α)
    (chunks : List (List Char)) : List Char × List α :=
  chunks.foldl (processChunk parse) ([], [])

/-- How `splitNL` acts on an append: all segments of the left part except the
last, then the last left segment joined with the first right segment, then the
remaining right segments. -/
def glue (xs ys : List (List Char)) : List (List Char) :=
  xs.dropLast ++ ((xs.getLastD [] ++ ys.headD []) :: ys.tail)

/-- Claim C8: TeamRouter.route is a total one-to-one function on the four
categories: billing maps to BillingTeam, technical to TechSupport, delivery to
DeliveryTeam, general to GeneralSupport; being a Lean function on the
Category type it leaves no category unmapped, and it is injective. -/
theorem teamRouter_route_total_one_to_one :
    TeamRouter.route Category.billing = Team.BillingTeam ∧
    TeamRouter.route Category.technical = Team.TechSupport ∧
    TeamRouter.route Category.delivery = Team.DeliveryTeam ∧
    TeamRouter.route Category.general = Team.GeneralSupport ∧
    Function.Injective TeamRouter.route := by
  refine ⟨rfl, rfl, rfl, rfl, ?_⟩
  intro a b h
  cases a <;> cases b <;> simp_all [TeamRouter.route]

/-- Witness for C8: the theorem applied to the injectivity of a concrete
pair. -/
theorem teamRouter_route_total_one_to_one_witness :
    TeamRouter.route Category.billing = Team.BillingTeam := by
  exact teamRouter_route_total_one_to_one.1

/-- Claim C9: the role predicates are mutually exclusive (a single stored
role string cannot equal both admin and customer), an absent token makes
isAuthenticated false, and ProtectedRoute then renders the login redirect
whatever its requireAdmin flag. -/
theorem auth_roles_and_redirect (st : BrowserStorage) :
    ¬(isAdmin st = true ∧ isCustomer st = true) ∧
    (st.token = none →
      isAuthenticated st = false ∧
      ∀ requireAdmin : Bool,
        protectedRoute st requireAdmin = RouteOutcome.redirectLogin) := by
  constructor
  · rintro ⟨ha, hc⟩
    cases hu : st.user with
    | none => simp [isAdmin, getCurrentUser, hu] at ha
    | some u =>
        simp [isAdmin, getCurrentUser, hu] at ha
        simp [isCustomer, getCurrentUser, hu] at hc
        exact absurd (ha ▸ hc) (by decide)
  · intro htok
    have hauth : isAuthenticated st = false := by
      simp [isAuthenticated, getToken, htok]
    exact ⟨hauth, fun requireAdmin => by simp [protectedRoute, hauth]⟩

/-- Witness for C9: the claim at a concrete storage state with no token and
an admin user item. -/
theorem auth_roles_and_redirect_witness :
    ¬(isAdmin ⟨none, some ⟨"admin"⟩⟩ = true ∧
        isCustomer ⟨none, some ⟨"admin"⟩⟩ = true) ∧
    ((⟨none, some ⟨"admin"⟩⟩ : BrowserStorage).token = none →
      isAuthenticated ⟨none, some ⟨"admin"⟩⟩ = false ∧
      ∀ requireAdmin : Bool,
        protectedRoute ⟨none, some ⟨"admin"⟩⟩ requireAdmin =
          RouteOutcome.redirectLogin) :=
  auth_roles_and_redirect ⟨none, some ⟨"admin"⟩⟩

theorem kfCategory_eq_billing_iff (text : String) :
    kfCategory text = Category.billing ↔
      (score text Category.technical < score text Category.billing ∧
       score text Category.delivery < score text Category.billing ∧
       score text Category.general < score text Category.billing) := by
  unfold kfCategory
  split_ifs with h1 h2 h3 <;> constructor <;> intro hh <;>
    first
      | rfl
      | omega
      | (exfalso; omega)
      | (simp at hh)

theorem kfCategory_eq_technical_iff (text : String) :
    kfCategory text = Category.technical ↔
      (score text Category.billing < score text Category.technical ∧
       score text Category.delivery < score text Category.technical ∧
       score text Category.general < score text Category.technical) := by
  unfold kfCategory
  split_ifs with h1 h2 h3 <;> constructor <;> intro hh <;>
    first
      | rfl
      | omega
      | (exfalso; omega)
      | (simp at hh)

theorem kfCategory_eq_delivery_iff (text : String) :
    kfCategory text = Category.delivery ↔
      (score text Category.billing < score text Category.delivery ∧
       score text Category.technical < score text Category.delivery ∧
       score text Category.general < score text Category.delivery) := by
  unfold kfCategory
  split_ifs with h1 h2 h3 <;> constructor <;> intro hh <;>
    first
      | rfl
      | omega
      | (exfalso; omega)
      | (simp at hh)

theorem strict_max_conj (text : String) (c : Category) :
    (∀ c' : Category, c' ≠ c → score text c' < score text c) ↔
      ((Category.billing ≠ c → score text Category.billing < score text c) ∧
       (Category.technical ≠ c → score text Category.technical < score text c) ∧
       (Category.delivery ≠ c → score text Category.delivery < score text c) ∧
       (Category.general ≠ c → score text Category.general < score text c)) := by
  constructor
  · intro h
    exact ⟨h Category.billing, h Category.technical, h Category.delivery,
           h Category.general⟩
  · rintro ⟨h1, h2, h3, h4⟩ c' hc'
    cases c'
    · exact h1 hc'
    · exact h2 hc'
    · exact h3 hc'
    · exact h4 hc'

/-- Claim C3: the keyword fallback classifier scores the four categories by
counting case-insensitive keyword substring matches, returns the category with
the strictly highest score while every tie (including the all-zero case)
resolves to general, attaches the fixed confidence 0.5, and is deterministic:
the same input always yields the same result. -/
theorem keywordFallback_spec (text : String) :
    (KeywordFallbackClassifier.classify text).confidence = 1/2 ∧
    (KeywordFallbackClassifier.classify text).source = Source.fallback ∧
    (KeywordFallbackClassifier.classify text).category = kfCategory text ∧
    (∀ c : Category, c ≠ Category.general →
      (kfCategory text = c ↔
        ∀ c' : Category, c' ≠ c → score text c' < score text c)) ∧
    ((∀ c : Category, c ≠ Category.general →
        ¬ ∀ c' : Category, c' ≠ c → score text c' < score text c) →
      kfCategory text = Category.general) ∧
    (∀ s : String, s = text →
      KeywordFallbackClassifier.classify s =
        KeywordFallbackClassifier.classify text) := by
  have hiff : ∀ c : Category, c ≠ Category.general →
      (kfCategory text = c ↔
        ∀ c' : Category, c' ≠ c → score text c' < score text c) := by
    intro c hc
    cases c with
    | billing =>
        rw [kfCategory_eq_billing_iff, strict_max_conj]
        constructor
        · rintro ⟨ht, hd, hg⟩
          exact ⟨fun h => absurd rfl h, fun _ => ht, fun _ => hd, fun _ => hg⟩
        · rintro ⟨_, ht, hd, hg⟩
          exact ⟨ht (by decide), hd (by decide), hg (by decide)⟩
    | technical =>
        rw [kfCategory_eq_technical_iff, strict_max_conj]
        constructor
        · rintro ⟨hb, hd, hg⟩
          exact ⟨fun _ => hb, fun h => absurd rfl h, fun _ => hd, fun _ => hg⟩
        · rintro ⟨hb, _, hd, hg⟩
          exact ⟨hb (by decide), hd (by decide), hg (by decide)⟩
    | delivery =>
        rw [kfCategory_eq_delivery_iff, strict_max_conj]
        constructor
        · rintro ⟨hb, ht, hg⟩
          exact ⟨fun _ => hb, fun _ => ht, fun h => absurd rfl h, fun _ => hg⟩
        · rintro ⟨hb, ht, _, hg⟩
          exact ⟨hb (by decide), ht (by decide), hg (by decide)⟩
    | general => exact absurd rfl hc
  refine ⟨rfl, rfl, rfl, hiff, ?_, fun s hs => by rw [hs]⟩
  intro hno
  cases hk : kfCategory text with
  | billing =>
      exact absurd ((hiff Category.billing (by decide)).mp hk)
        (hno Category.billing (by decide))
  | technical =>
      exact absurd ((hiff Category.technical (by decide)).mp hk)
        (hno Category.technical (by decide))
  | delivery =>
      exact absurd ((hiff Category.delivery (by decide)).mp hk)
        (hno Category.delivery (by decide))
  | general => rfl

/-- Witness for C3: the claim instantiated at a concrete billing text. -/
theorem keywordFallback_spec_witness :
    (KeywordFallbackClassifier.classify "please refund me").confidence = 1/2 ∧
    (KeywordFallbackClassifier.classify "please refund me").source =
      Source.fallback ∧
    (KeywordFallbackClassifier.classify "please refund me").category =
      kfCategory "please refund me" ∧
    (∀ c : Category, c ≠ Category.general →
      (kfCategory "please refund me" = c ↔
        ∀ c' : Category, c' ≠ c →
          score "please refund me" c' < score "please refund me" c)) ∧
    ((∀ c : Category, c ≠ Category.general →
        ¬ ∀ c' : Category, c' ≠ c →
            score "please refund me" c' < score "please refund me" c) →
      kfCategory "please refund me" = Category.general) ∧
    (∀ s : String, s = "please refund me" →
      KeywordFallbackClassifier.classify s =
        KeywordFallbackClassifier.classify "please refund me") :=
  keywordFallback_spec "please refund me"

theorem retryAux_result_cases (oracle : ℕ → ModelOutcome) (text : String)
    (base cap : ℕ) :
    ∀ (rem idx : ℕ) (ds : List ℕ),
      (retryAux oracle text base cap rem idx ds).result =
          KeywordFallbackClassifier.classify text ∨
        ∃ j lab conf, oracle j = ModelOutcome.success lab conf ∧
          (retryAux oracle text base cap rem idx ds).result =
            ⟨lab, conf, Source.model⟩ := by
  intro rem
  induction rem with
  | zero => intro idx ds; left; rfl
  | succ n ih =>
      intro idx ds
      cases h : oracle idx with
      | success lab conf =>
          right
          exact ⟨idx, lab, conf, h, by simp [retryAux, h]⟩
      | modelError => left; simp [retryAux, h]
      | rateLimited =>
          cases n with
          | zero => left; simp [retryAux, h]
          | succ m =>
              have := ih (idx + 1) (retryDelay base cap ds.length :: ds)
              simpa [retryAux, h] using this

/-- Claim C1: classification is total: for every input text (and every
behaviour of the external model capability whose successful confidences lie in
the unit interval) the retrying classifier returns a classification result
whose category is one of the four fixed categories and whose confidence lies
in the unit interval. -/
theorem classify_total_range (oracle : ℕ → ModelOutcome) (text : String)
    (hconf : ∀ i lab conf, oracle i = ModelOutcome.success lab conf →
      0 ≤ conf ∧ conf ≤ 1) :
    ((classifyDefault oracle text).result.category = Category.billing ∨
     (classifyDefault oracle text).result.category = Category.technical ∨
     (classifyDefault oracle text).result.category = Category.delivery ∨
     (classifyDefault oracle text).result.category = Category.general) ∧
    0 ≤ (classifyDefault oracle text).result.confidence ∧
    (classifyDefault oracle text).result.confidence ≤ 1 := by
  constructor
  · cases (classifyDefault oracle text).result.category <;> simp
  · have h := retryAux_result_cases oracle text 1 8 3 0 []
    have hd : classifyDefault oracle text = retryAux oracle text 1 8 3 0 [] :=
      rfl
    rw [hd]
    rcases h with h | ⟨j, lab, conf, hj, h⟩
    · rw [h]
      constructor <;> norm_num [KeywordFallbackClassifier.classify]
    · rw [h]
      exact hconf j lab conf hj

/-- Witness for C1: the claim at a concrete text against a model capability
that always fails with a model error. -/
theorem classify_total_range_witness :
    ((classifyDefault (fun _ => ModelOutcome.modelError) "refund").result.category
        = Category.billing ∨
     (classifyDefault (fun _ => ModelOutcome.modelError) "refund").result.category
        = Category.technical ∨
     (classifyDefault (fun _ => ModelOutcome.modelError) "refund").result.category
        = Category.delivery ∨
     (classifyDefault (fun _ => ModelOutcome.modelError) "refund").result.category
        = Category.general) ∧
    0 ≤ (classifyDefault (fun _ => ModelOutcome.modelError) "refund").result.confidence ∧
    (classifyDefault (fun _ => ModelOutcome.modelError) "refund").result.confidence ≤ 1 :=
  classify_total_range (fun _ => ModelOutcome.modelError) "refund"
    (by intro i lab conf h; simp at h)

theorem retryAux_zero_eq (oracle : ℕ → ModelOutcome) (text : String)
    (base cap idx : ℕ) (ds : List ℕ) :
    retryAux oracle text base cap 0 idx ds =
      ⟨KeywordFallbackClassifier.classify text, idx, ds.reverse⟩ := rfl

theorem retryAux_succ_eq (oracle : ℕ → ModelOutcome) (text : String)
    (base cap rem idx : ℕ) (ds : List ℕ) :
    retryAux oracle text base cap (rem + 1) idx ds =
      (match oracle idx with
       | ModelOutcome.success lab conf =>
           ⟨⟨lab, conf, Source.model⟩, idx + 1, ds.reverse⟩
       | ModelOutcome.modelError =>
           ⟨KeywordFallbackClassifier.classify text, idx + 1, ds.reverse⟩
       | ModelOutcome.rateLimited =>
           match rem with
           | 0 => ⟨KeywordFallbackClassifier.classify text, idx + 1, ds.reverse⟩
           | _ + 1 =>
               retryAux oracle text base cap rem (idx + 1)
                 (retryDelay base cap ds.length :: ds)) := rfl

theorem retryAux_at_success (oracle : ℕ → ModelOutcome) (text : String)
    (base cap : ℕ) {idx : ℕ} {lab : Category} {conf : ℚ}
    (h : oracle idx = ModelOutcome.success lab conf) (rem : ℕ) (ds : List ℕ) :
    retryAux oracle text base cap (rem + 1) idx ds =
      ⟨⟨lab, conf, Source.model⟩, idx + 1, ds.reverse⟩ := by
  rw [retryAux_succ_eq, h]

theorem retryAux_at_modelError (oracle : ℕ → ModelOutcome) (text : String)
    (base cap : ℕ) {idx : ℕ} (h : oracle idx = ModelOutcome.modelError)
    (rem : ℕ) (ds : List ℕ) :
    retryAux oracle text base cap (rem + 1) idx ds =
      ⟨KeywordFallbackClassifier.classify text, idx + 1, ds.reverse⟩ := by
  rw [retryAux_succ_eq, h]

theorem retryAux_at_rateLimited_last (oracle : ℕ → ModelOutcome)
    (text : String) (base cap : ℕ) {idx : ℕ}
    (h : oracle idx = ModelOutcome.rateLimited) (ds : List ℕ) :
    retryAux oracle text base cap (0 + 1) idx ds =
      ⟨KeywordFallbackClassifier.classify text, idx + 1, ds.reverse⟩ := by
  rw [retryAux_succ_eq, h]

theorem retryAux_at_rateLimited_step (oracle : ℕ → ModelOutcome)
    (text : String) (base cap : ℕ) {idx : ℕ}
    (h : oracle idx = ModelOutcome.rateLimited) (m : ℕ) (ds : List ℕ) :
    retryAux oracle text base cap (m + 1 + 1) idx ds =
      retryAux oracle text base cap (m + 1) (idx + 1)
        (retryDelay base cap ds.length :: ds) := by
  rw [retryAux_succ_eq, h]

theorem retryAux_attempts_le (oracle : ℕ → ModelOutcome) (text : String)
    (base cap : ℕ) :
    ∀ (rem idx : ℕ) (ds : List ℕ),
      (retryAux oracle text base cap rem idx ds).attemptsMade ≤ idx + rem := by
  intro rem
  induction rem with
  | zero =>
      intro idx ds
      simp only [retryAux_zero_eq]
      omega
  | succ n ih =>
      intro idx ds
      cases h : oracle idx with
      | success lab conf =>
          simp only [retryAux_at_success oracle text base cap h n ds]
          omega
      | modelError =>
          simp only [retryAux_at_modelError oracle text base cap h n ds]
          omega
      | rateLimited =>
          cases n with
          | zero =>
              simp only [retryAux_at_rateLimited_last oracle text base cap h ds]
              omega
          | succ m =>
              simp only [retryAux_at_rateLimited_step oracle text base cap h m ds]
              have := ih (idx + 1) (retryDelay base cap ds.length :: ds)
              omega

theorem range_map_reverse_succ {α : Type} (f : ℕ → α) (n : ℕ) :
    ((List.range (n + 1)).map f).reverse =
      f n :: ((List.range n).map f).reverse := by
  rw [List.range_succ]
  simp

theorem retryAux_delays_canonical (oracle : ℕ → ModelOutcome) (text : String)
    (base cap : ℕ) :
    ∀ (rem idx : ℕ) (ds : List ℕ),
      ds = ((List.range ds.length).map (retryDelay base cap)).reverse →
      ∃ k, k ≤ ds.length + (rem - 1) ∧
        (retryAux oracle text base cap rem idx ds).delays =
          (List.range k).map (retryDelay base cap) := by
  intro rem
  induction rem with
  | zero =>
      intro idx ds hds
      refine ⟨ds.length, by omega, ?_⟩
      simp only [retryAux_zero_eq]
      conv_lhs => rw [hds]
      simp
  | succ n ih =>
      intro idx ds hds
      cases h : oracle idx with
      | success lab conf =>
          refine ⟨ds.length, by omega, ?_⟩
          simp only [retryAux_at_success oracle text base cap h n ds]
          conv_lhs => rw [hds]
          simp
      | modelError =>
          refine ⟨ds.length, by omega, ?_⟩
          simp only [retryAux_at_modelError oracle text base cap h n ds]
          conv_lhs => rw [hds]
          simp
      | rateLimited =>
          cases n with
          | zero =>
              refine ⟨ds.length, by omega, ?_⟩
              simp only [retryAux_at_rateLimited_last oracle text base cap h ds]
              conv_lhs => rw [hds]
              simp
          | succ m =>
              have hds' : retryDelay base cap ds.length :: ds =
                  ((List.range (ds.length + 1)).map
                    (retryDelay base cap)).reverse := by
                rw [range_map_reverse_succ]
                conv_rhs => rw [← hds]
              obtain ⟨k, hk, hdel⟩ := ih (idx + 1)
                (retryDelay base cap ds.length :: ds) hds'
              refine ⟨k, ?_, ?_⟩
              · simp only [List.length_cons] at hk
                omega
              · simp only [retryAux_at_rateLimited_step oracle text base cap h m ds]
                exact hdel

theorem retryAux_modelError_stops (oracle : ℕ → ModelOutcome) (text : String)
    (base cap : ℕ) :
    ∀ (j rem idx : ℕ) (ds : List ℕ),
      j + 1 ≤ rem →
      oracle (idx + j) = ModelOutcome.modelError →
      (∀ i, i < j → oracle (idx + i) = ModelOutcome.rateLimited) →
      (retryAux oracle text base cap rem idx ds).attemptsMade = idx + j + 1 ∧
      (retryAux oracle text base cap rem idx ds).delays.length =
        ds.length + j ∧
      (retryAux oracle text base cap rem idx ds).result =
        KeywordFallbackClassifier.classify text := by
  intro j
  induction j with
  | zero =>
      intro rem idx ds hrem hje hbf
      cases rem with
      | zero => omega
      | succ n =>
          have h0 : oracle idx = ModelOutcome.modelError := by simpa using hje
          refine ⟨?_, ?_, ?_⟩ <;>
            simp only [retryAux_at_modelError oracle text base cap h0 n ds] <;>
            first
              | rfl
              | omega
              | simp
  | succ jj ih =>
      intro rem idx ds hrem hje hbf
      cases rem with
      | zero => omega
      | succ n =>
          have h0 : oracle idx = ModelOutcome.rateLimited := by
            simpa using hbf 0 (by omega)
          cases n with
          | zero => omega
          | succ m =>
              have hje' : oracle (idx + 1 + jj) = ModelOutcome.modelError := by
                rw [show idx + 1 + jj = idx + (jj + 1) by omega]
                exact hje
              have hbf' : ∀ i, i < jj →
                  oracle (idx + 1 + i) = ModelOutcome.rateLimited := by
                intro i hi
                rw [show idx + 1 + i = idx + (i + 1) by omega]
                exact hbf (i + 1) (by omega)
              obtain ⟨ha, hl, hr⟩ := ih (m + 1) (idx + 1)
                (retryDelay base cap ds.length :: ds) (by omega) hje' hbf'
              simp only [List.length_cons] at hl
              refine ⟨?_, ?_, ?_⟩ <;>
                simp only
                  [retryAux_at_rateLimited_step oracle text base cap h0 m ds] <;>
                first
                  | omega
                  | exact hr

theorem retryAux_exhausts (oracle : ℕ → ModelOutcome) (text : String)
    (base cap : ℕ) :
    ∀ (rem idx : ℕ) (ds : List ℕ),
      (∀ i, i < rem → oracle (idx + i) = ModelOutcome.rateLimited) →
      (retryAux oracle text base cap rem idx ds).attemptsMade = idx + rem ∧
      (retryAux oracle text base cap rem idx ds).delays.length =
        ds.length + (rem - 1) ∧
      (retryAux oracle text base cap rem idx ds).result =
        KeywordFallbackClassifier.classify text := by
  intro rem
  induction rem with
  | zero =>
      intro idx ds h
      refine ⟨?_, ?_, ?_⟩ <;> simp only [retryAux_zero_eq] <;>
        first
          | rfl
          | omega
          | simp
  | succ n ih =>
      intro idx ds h
      have h0 : oracle idx = ModelOutcome.rateLimited := by
        simpa using h 0 (by omega)
      cases n with
      | zero =>
          refine ⟨?_, ?_, ?_⟩ <;>
            simp only [retryAux_at_rateLimited_last oracle text base cap h0 ds] <;>
            first
              | rfl
              | omega
              | simp
      | succ m =>
          have h' : ∀ i, i < m + 1 →
              oracle (idx + 1 + i) = ModelOutcome.rateLimited := by
            intro i hi
            rw [show idx + 1 + i = idx + (i + 1) by omega]
            exact h (i + 1) (by omega)
          obtain ⟨ha, hl, hr⟩ := ih (idx + 1)
            (retryDelay base cap ds.length :: ds) h'
          simp only [List.length_cons] at hl
          refine ⟨?_, ?_, ?_⟩ <;>
            simp only [retryAux_at_rateLimited_step oracle text base cap h0 m ds] <;>
            first
              | omega
              | exact hr

/-- Claim C2: with the spec default configuration the retrying classifier
makes at most 3 model attempts; its inter-attempt delays form the doubling
sequence capped at 8 and strictly increase; a model error at any attempt stops
the loop at that attempt with no further delay and yields the fallback result;
and exhausting all attempts on rate limits yields the fallback result (source
fallback) after exactly the two strictly increasing delays 1 and 2. -/
theorem retrying_backoff_spec (oracle : ℕ → ModelOutcome) (text : String) :
    (classifyDefault oracle text).attemptsMade ≤ 3 ∧
    (∃ k, k ≤ 2 ∧
      (classifyDefault oracle text).delays =
        (List.range k).map (retryDelay 1 8)) ∧
    List.Chain' (· < ·) (classifyDefault oracle text).delays ∧
    (∀ d ∈ (classifyDefault oracle text).delays, d ≤ 8) ∧
    (∀ j, j < 3 → oracle j = ModelOutcome.modelError →
      (∀ i, i < j → oracle i = ModelOutcome.rateLimited) →
      (classifyDefault oracle text).attemptsMade = j + 1 ∧
      (classifyDefault oracle text).delays.length = j ∧
      (classifyDefault oracle text).result =
        KeywordFallbackClassifier.classify text) ∧
    ((∀ i, i < 3 → oracle i = ModelOutcome.rateLimited) →
      (classifyDefault oracle text).attemptsMade = 3 ∧
      (classifyDefault oracle text).delays = [1, 2] ∧
      (classifyDefault oracle text).result =
        KeywordFallbackClassifier.classify text ∧
      (classifyDefault oracle text).result.source = Source.fallback) := by
  simp only [classifyDefault, RetryingClassifier.classify]
  obtain ⟨k, hk, hdel⟩ :=
    retryAux_delays_canonical oracle text 1 8 3 0 [] (by simp)
  simp only [List.length_nil] at hk
  refine ⟨?_, ⟨k, by omega, hdel⟩, ?_, ?_, ?_, ?_⟩
  · simpa using retryAux_attempts_le oracle text 1 8 3 0 []
  · rw [hdel]
    interval_cases k
    · rw [show (List.range 0).map (retryDelay 1 8) = ([] : List ℕ) from rfl]
      simp
    · rw [show (List.range 1).map (retryDelay 1 8) = [1] from rfl]
      simp
    · rw [show (List.range 2).map (retryDelay 1 8) = [1, 2] from rfl]
      exact List.chain'_pair.mpr (by norm_num)
  · intro d hd
    rw [hdel] at hd
    simp only [List.mem_map, List.mem_range] at hd
    obtain ⟨i, _, hi⟩ := hd
    rw [← hi]
    simp only [retryDelay]
    omega
  · intro j hj hje hbf
    obtain ⟨ha, hl, hr⟩ := retryAux_modelError_stops oracle text 1 8 j 3 0 []
      (by omega) (by simpa using hje) (by intro i hi; simpa using hbf i hi)
    simp only [List.length_nil] at hl
    exact ⟨by omega, by omega, hr⟩
  · intro hall
    obtain ⟨ha, hl, hr⟩ := retryAux_exhausts oracle text 1 8 3 0 []
      (by intro i hi; simpa using hall i hi)
    simp only [List.length_nil] at hl
    have hk2 : k = 2 := by
      rw [hdel] at hl
      simp only [List.length_map, List.length_range] at hl
      omega
    refine ⟨by omega, ?_, hr, by rw [hr]; rfl⟩
    rw [hdel, hk2]
    decide

/-- Witness for C2: the claim against a model capability that is always rate
limited. -/
theorem retrying_backoff_spec_witness :
    (classifyDefault (fun _ => ModelOutcome.rateLimited) "x").attemptsMade ≤ 3 ∧
    (∃ k, k ≤ 2 ∧
      (classifyDefault (fun _ => ModelOutcome.rateLimited) "x").delays =
        (List.range k).map (retryDelay 1 8)) ∧
    List.Chain' (· < ·)
      (classifyDefault (fun _ => ModelOutcome.rateLimited) "x").delays ∧
    (∀ d ∈ (classifyDefault (fun _ => ModelOutcome.rateLimited) "x").delays,
      d ≤ 8) ∧
    (∀ j, j < 3 →
      (fun _ => ModelOutcome.rateLimited) j = ModelOutcome.modelError →
      (∀ i, i < j →
        (fun _ => ModelOutcome.rateLimited) i = ModelOutcome.rateLimited) →
      (classifyDefault (fun _ => ModelOutcome.rateLimited) "x").attemptsMade =
        j + 1 ∧
      (classifyDefault (fun _ => ModelOutcome.rateLimited) "x").delays.length =
        j ∧
      (classifyDefault (fun _ => ModelOutcome.rateLimited) "x").result =
        KeywordFallbackClassifier.classify "x") ∧
    ((∀ i, i < 3 →
        (fun _ => ModelOutcome.rateLimited) i = ModelOutcome.rateLimited) →
      (classifyDefault (fun _ => ModelOutcome.rateLimited) "x").attemptsMade =
        3 ∧
      (classifyDefault (fun _ => ModelOutcome.rateLimited) "x").delays =
        [1, 2] ∧
      (classifyDefault (fun _ => ModelOutcome.rateLimited) "x").result =
        KeywordFallbackClassifier.classify "x" ∧
      (classifyDefault (fun _ => ModelOutcome.rateLimited) "x").result.source =
        Source.fallback) :=
  retrying_backoff_spec (fun _ => ModelOutcome.rateLimited) "x"

theorem findTicket_id {store : List Ticket} {id : ℕ} {t : Ticket}
    (h : findTicket store id = some t) : t.id = id := by
  have := List.find?_some h
  simpa using this

theorem findTicket_putTicket (id : ℕ) (t t' : Ticket) (hid : t'.id = id) :
    ∀ store : List Ticket, findTicket store id = some t →
      findTicket (putTicket store id t') id = some t' := by
  intro store
  induction store with
  | nil => intro h; simp [findTicket] at h
  | cons u us ih =>
      intro h
      by_cases hu : u.id = id
      · simp [findTicket, putTicket, hu, hid]
      · have h' : findTicket us id = some t := by
          rw [findTicket] at h
          rwa [List.find?_cons_of_neg _ (by simp [hu])] at h
        have hrec := ih h'
        rw [findTicket, putTicket, List.map_cons]
        rw [show (if u.id == id then t' else u) = u from by simp [hu]]
        rw [List.find?_cons_of_neg _ (by simp [hu])]
        simpa [findTicket, putTicket] using hrec

/-- Claim C5: reopen_ticket succeeds exactly when the target ticket has
status resolved or closed, in which case the stored ticket becomes the same
ticket with status pending; for a pending or in_progress ticket it returns
InvalidTransition and the store is entirely unchanged. -/
theorem reopen_ticket_spec (store : List Ticket) (id : ℕ) (t : Ticket)
    (hfind : findTicket store id = some t) :
    ((t.status = Status.resolved ∨ t.status = Status.closed) →
      (reopenTicket store id).2 =
        Except.ok { t with status := Status.pending } ∧
      findTicket (reopenTicket store id).1 id =
        some { t with status := Status.pending }) ∧
    ((t.status = Status.pending ∨ t.status = Status.in_progress) →
      (reopenTicket store id).2 =
        Except.error ActionError.InvalidTransition ∧
      (reopenTicket store id).1 = store) ∧
    ((∃ t', (reopenTicket store id).2 = Except.ok t') ↔
      (t.status = Status.resolved ∨ t.status = Status.closed)) := by
  simp only [reopenTicket, hfind]
  by_cases hst : t.status = Status.resolved ∨ t.status = Status.closed
  · rw [if_pos hst]
    refine ⟨fun _ => ⟨rfl, ?_⟩, fun hcon => ?_, ?_⟩
    · exact findTicket_putTicket id t _ (by simpa using findTicket_id hfind)
        store hfind
    · exfalso
      rcases hst with h | h <;> rcases hcon with h' | h' <;> rw [h] at h' <;>
        simp at h'
    · exact ⟨fun _ => hst, fun _ => ⟨_, rfl⟩⟩
  · rw [if_neg hst]
    refine ⟨fun hcon => absurd hcon hst, fun _ => ⟨rfl, rfl⟩, ?_⟩
    constructor
    · rintro ⟨t', ht'⟩
      simp at ht'
    · intro hcon
      exact absurd hcon hst

/-- Witness for C5: the claim at a concrete one-ticket store holding a
resolved ticket. -/
theorem reopen_ticket_spec_witness :
    ((Ticket.status ⟨1, Category.billing, Status.resolved, Team.BillingTeam,
          1/2, "m"⟩ = Status.resolved ∨
      Ticket.status ⟨1, Category.billing, Status.resolved, Team.BillingTeam,
          1/2, "m"⟩ = Status.closed) →
      (reopenTicket [⟨1, Category.billing, Status.resolved, Team.BillingTeam,
          1/2, "m"⟩] 1).2 =
        Except.ok { (⟨1, Category.billing, Status.resolved, Team.BillingTeam,
          1/2, "m"⟩ : Ticket) with status := Status.pending } ∧
      findTicket (reopenTicket [⟨1, Category.billing, Status.resolved,
          Team.BillingTeam, 1/2, "m"⟩] 1).1 1 =
        some { (⟨1, Category.billing, Status.resolved, Team.BillingTeam,
          1/2, "m"⟩ : Ticket) with status := Status.pending }) ∧
    ((Ticket.status ⟨1, Category.billing, Status.resolved, Team.BillingTeam,
          1/2, "m"⟩ = Status.pending ∨
      Ticket.status ⟨1, Category.billing, Status.resolved, Team.BillingTeam,
          1/2, "m"⟩ = Status.in_progress) →
      (reopenTicket [⟨1, Category.billing, Status.resolved, Team.BillingTeam,
          1/2, "m"⟩] 1).2 =
        Except.error ActionError.InvalidTransition ∧
      (reopenTicket [⟨1, Category.billing, Status.resolved, Team.BillingTeam,
          1/2, "m"⟩] 1).1 =
        [⟨1, Category.billing, Status.resolved, Team.BillingTeam, 1/2, "m"⟩]) ∧
    ((∃ t', (reopenTicket [⟨1, Category.billing, Status.resolved,
          Team.BillingTeam, 1/2, "m"⟩] 1).2 = Except.ok t') ↔
      (Ticket.status ⟨1, Category.billing, Status.resolved, Team.BillingTeam,
          1/2, "m"⟩ = Status.resolved ∨
       Ticket.status ⟨1, Category.billing, Status.resolved, Team.BillingTeam,
          1/2, "m"⟩ = Status.closed)) :=
  reopen_ticket_spec
    [⟨1, Category.billing, Status.resolved, Team.BillingTeam, 1/2, "m"⟩] 1
    ⟨1, Category.billing, Status.resolved, Team.BillingTeam, 1/2, "m"⟩ rfl

/-- Claim C6: update_category on an existing ticket, whatever its prior
status, returns the ticket with the new category, status reset to pending and
the assigned team recomputed from the new category via TeamRouter, and stores
exactly that ticket. -/
theorem update_category_spec (store : List Ticket) (id : ℕ) (newCat : Category)
    (t : Ticket) (hfind : findTicket store id = some t) :
    (updateCategory store id newCat).2 =
      Except.ok { t with category := newCat,
                         status := Status.pending,
                         assignedTeam := TeamRouter.route newCat } ∧
    findTicket (updateCategory store id newCat).1 id =
      some { t with category := newCat,
                    status := Status.pending,
                    assignedTeam := TeamRouter.route newCat } := by
  simp only [updateCategory, hfind]
  constructor
  · trivial
  · exact findTicket_putTicket id t _ (by simpa using findTicket_id hfind)
      store hfind

/-- Witness for C6: the claim at a concrete in_progress technical ticket
recategorized to billing. -/
theorem update_category_spec_witness :
    (updateCategory [⟨2, Category.technical, Status.in_progress,
        Team.TechSupport, 1/2, "m"⟩] 2 Category.billing).2 =
      Except.ok { (⟨2, Category.technical, Status.in_progress,
        Team.TechSupport, 1/2, "m"⟩ : Ticket) with
          category := Category.billing,
          status := Status.pending,
          assignedTeam := TeamRouter.route Category.billing } ∧
    findTicket (updateCategory [⟨2, Category.technical, Status.in_progress,
        Team.TechSupport, 1/2, "m"⟩] 2 Category.billing).1 2 =
      some { (⟨2, Category.technical, Status.in_progress,
        Team.TechSupport, 1/2, "m"⟩ : Ticket) with
          category := Category.billing,
          status := Status.pending,
          assignedTeam := TeamRouter.route Category.billing } :=
  update_category_spec
    [⟨2, Category.technical, Status.in_progress, Team.TechSupport, 1/2, "m"⟩]
    2 Category.billing
    ⟨2, Category.technical, Status.in_progress, Team.TechSupport, 1/2, "m"⟩ rfl

/-- Claim C4: every handle invocation emits zero or more status records
followed by exactly one terminal record, which is complete or error but never
both, and no record follows the terminal one (the event list ends at the
terminal record). -/
theorem handle_stream_grammar (store : List Ticket) (sessionId newId : ℕ)
    (oracle : ℕ → ModelOutcome) (intent : Intent) :
    ∃ (msgs : List String) (term : Event),
      (handle store sessionId newId oracle intent).events =
        msgs.map Event.status ++ [term] ∧
      (term.isComplete = true ∨ term.isError = true) ∧
      ¬(term.isComplete = true ∧ term.isError = true) := by
  cases intent with
  | general_chat =>
      exact ⟨[], Event.complete "How can I help you with your tickets?"
        sessionId none, rfl, Or.inl rfl,
        by simp [Event.isComplete, Event.isError]⟩
  | status_query id =>
      cases h : findTicket store id with
      | none =>
          refine ⟨["Looking up ticket..."],
            Event.error (errorText ActionError.NotFound), ?_, Or.inr rfl,
            by simp [Event.isComplete, Event.isError]⟩
          simp [handle, h]
      | some t =>
          refine ⟨["Looking up ticket..."],
            Event.complete ("Ticket #" ++ toString t.id ++ " status summary")
              sessionId none, ?_, Or.inl rfl,
            by simp [Event.isComplete, Event.isError]⟩
          simp [handle, h]
  | create_ticket msg =>
      refine ⟨["Classifying message...", "Creating ticket..."],
        Event.complete
          ("Created ticket #" ++ toString (createTicket store newId oracle msg).2.id)
          sessionId
          (some ⟨ActionKind.create_ticket,
            (createTicket store newId oracle msg).2.id⟩), ?_, Or.inl rfl,
        by simp [Event.isComplete, Event.isError]⟩
      rfl
  | update_category id c =>
      rcases h : updateCategory store id c with ⟨s', out⟩
      cases out with
      | ok t' =>
          refine ⟨["Updating ticket..."],
            Event.complete ("Updated ticket #" ++ toString t'.id) sessionId
              (some ⟨ActionKind.update_category, t'.id⟩), ?_, Or.inl rfl,
            by simp [Event.isComplete, Event.isError]⟩
          simp [handle, h]
      | error e =>
          refine ⟨["Updating ticket..."], Event.error (errorText e), ?_,
            Or.inr rfl, by simp [Event.isComplete, Event.isError]⟩
          simp [handle, h]
  | reopen_ticket id =>
      rcases h : reopenTicket store id with ⟨s', out⟩
      cases out with
      | ok t' =>
          refine ⟨["Reopening ticket..."],
            Event.complete ("Reopened ticket #" ++ toString t'.id) sessionId
              (some ⟨ActionKind.reopen_ticket, t'.id⟩), ?_, Or.inl rfl,
            by simp [Event.isComplete, Event.isError]⟩
          simp [handle, h]
      | error e =>
          refine ⟨["Reopening ticket..."], Event.error (errorText e), ?_,
            Or.inr rfl, by simp [Event.isComplete, Event.isError]⟩
          simp [handle, h]

/-- Witness for C4: the claim at a concrete invocation (general chat). -/
theorem handle_stream_grammar_witness :
    ∃ (msgs : List String) (term : Event),
      (handle [] 7 100 (fun _ => ModelOutcome.modelError)
          Intent.general_chat).events =
        msgs.map Event.status ++ [term] ∧
      (term.isComplete = true ∨ term.isError = true) ∧
      ¬(term.isComplete = true ∧ term.isError = true) :=
  handle_stream_grammar [] 7 100 (fun _ => ModelOutcome.modelError)
    Intent.general_chat

/-- Claim C7: an action record is attached to the terminal complete event if
and only if the invocation performed a ticket-store write, and an invocation
that performed no write leaves the ticket store unchanged. -/
theorem action_record_iff_write (store : List Ticket) (sessionId newId : ℕ)
    (oracle : ℕ → ModelOutcome) (intent : Intent) :
    ((actionOf (handle store sessionId newId oracle intent)).isSome =
      (handle store sessionId newId oracle intent).wrote) ∧
    ((handle store sessionId newId oracle intent).wrote = false →
      (handle store sessionId newId oracle intent).store = store) := by
  cases intent with
  | general_chat => exact ⟨rfl, fun _ => rfl⟩
  | status_query id =>
      cases h : findTicket store id with
      | none =>
          constructor
          · simp [handle, h, actionOf]
          · intro
            simp [handle, h]
      | some t =>
          constructor
          · simp [handle, h, actionOf]
          · intro
            simp [handle, h]
  | create_ticket msg =>
      constructor
      · rfl
      · intro hw
        exact absurd hw (by simp [handle])
  | update_category id c =>
      rcases h : updateCategory store id c with ⟨s', out⟩
      cases out with
      | ok t' =>
          constructor
          · simp [handle, h, actionOf]
          · intro hw
            exact absurd hw (by simp [handle, h])
      | error e =>
          constructor
          · simp [handle, h, actionOf]
          · intro
            simp [handle, h]
  | reopen_ticket id =>
      rcases h : reopenTicket store id with ⟨s', out⟩
      cases out with
      | ok t' =>
          constructor
          · simp [handle, h, actionOf]
          · intro hw
            exact absurd hw (by simp [handle, h])
      | error e =>
          constructor
          · simp [handle, h, actionOf]
          · intro
            simp [handle, h]

/-- Witness for C7: the claim at a concrete reopen invocation on a resolved
ticket. -/
theorem action_record_iff_write_witness :
    ((actionOf (handle
        [⟨42, Category.billing, Status.resolved, Team.BillingTeam, 1/2, "m"⟩]
        7 100 (fun _ => ModelOutcome.modelError)
        (Intent.reopen_ticket 42))).isSome =
      (handle
        [⟨42, Category.billing, Status.resolved, Team.BillingTeam, 1/2, "m"⟩]
        7 100 (fun _ => ModelOutcome.modelError)
        (Intent.reopen_ticket 42)).wrote) ∧
    ((handle
        [⟨42, Category.billing, Status.resolved, Team.BillingTeam, 1/2, "m"⟩]
        7 100 (fun _ => ModelOutcome.modelError)
        (Intent.reopen_ticket 42)).wrote = false →
      (handle
        [⟨42, Category.billing, Status.resolved, Team.BillingTeam, 1/2, "m"⟩]
        7 100 (fun _ => ModelOutcome.modelError)
        (Intent.reopen_ticket 42)).store =
        [⟨42, Category.billing, Status.resolved, Team.BillingTeam, 1/2, "m"⟩]) :=
  action_record_iff_write
    [⟨42, Category.billing, Status.resolved, Team.BillingTeam, 1/2, "m"⟩]
    7 100 (fun _ => ModelOutcome.modelError) (Intent.reopen_ticket 42)

theorem splitNL_ne_nil (s : List Char) : splitNL s ≠ [] := by
  cases s with
  | nil => simp [splitNL]
  | cons c cs => by_cases h : c = '\n' <;> simp [splitNL, h]

theorem splitNL_nl_cons (cs : List Char) :
    splitNL ('\n' :: cs) = [] :: splitNL cs := by
  simp [splitNL]

theorem splitNL_other_cons {c : Char} (h : c ≠ '\n') (cs : List Char) :
    splitNL (c :: cs) =
      (c :: (splitNL cs).headD []) :: (splitNL cs).tail := by
  simp [splitNL, h]

theorem glue_cons (x : List Char) (xs ys : List (List Char)) (h : xs ≠ []) :
    glue (x :: xs) ys = x :: glue xs ys := by
  cases xs with
  | nil => exact absurd rfl h
  | cons a as => simp [glue, List.getLastD_cons]

theorem glue_single_left (x : List Char) (ys : List (List Char)) :
    glue [x] ys = (x ++ ys.headD []) :: ys.tail := by
  simp [glue]

theorem glue_nil_left (ys : List (List Char)) (h : ys ≠ []) :
    glue [[]] ys = ys := by
  cases ys with
  | nil => exact absurd rfl h
  | cons y ts => simp [glue]

theorem splitNL_append (a b : List Char) :
    splitNL (a ++ b) = glue (splitNL a) (splitNL b) := by
  induction a with
  | nil =>
      rw [List.nil_append, show splitNL [] = [[]] from rfl,
        glue_nil_left _ (splitNL_ne_nil b)]
  | cons c cs ih =>
      by_cases h : c = '\n'
      · subst h
        rw [List.cons_append, splitNL_nl_cons, splitNL_nl_cons, ih,
          glue_cons _ _ _ (splitNL_ne_nil cs)]
      · rw [List.cons_append, splitNL_other_cons h, splitNL_other_cons h, ih]
        cases hX : splitNL cs with
        | nil => exact absurd hX (splitNL_ne_nil cs)
        | cons x xs =>
            cases xs with
            | nil =>
                simp only [List.headD_cons, List.tail_cons]
                rw [glue_single_left, glue_single_left]
                simp
            | cons x' xs' =>
                simp only [List.headD_cons, List.tail_cons]
                rw [glue_cons x (x' :: xs') _ (by simp),
                  glue_cons (c :: x) (x' :: xs') _ (by simp)]
                simp

theorem splitNL_single (s : List Char) (h : '\n' ∉ s) : splitNL s = [s] := by
  induction s with
  | nil => rfl
  | cons c cs ih =>
      have hc : c ≠ '\n' := fun hh => h (hh ▸ List.mem_cons_self c cs)
      have hcs : '\n' ∉ cs := fun hh => h (List.mem_cons_of_mem c hh)
      rw [splitNL_other_cons hc, ih hcs]
      simp

theorem splitNL_parts_no_nl (s : List Char) :
    ∀ l ∈ splitNL s, '\n' ∉ l := by
  induction s with
  | nil =>
      intro l hl
      rw [show splitNL [] = [[]] from rfl] at hl
      simp at hl
      subst hl
      simp
  | cons c cs ih =>
      intro l hl
      by_cases h : c = '\n'
      · subst h
        rw [splitNL_nl_cons] at hl
        rcases List.mem_cons.mp hl with rfl | hl
        · simp
        · exact ih l hl
      · rw [splitNL_other_cons h] at hl
        cases hX : splitNL cs with
        | nil => exact absurd hX (splitNL_ne_nil cs)
        | cons x xs =>
            rw [hX] at hl
            simp only [List.headD_cons, List.tail_cons] at hl
            rcases List.mem_cons.mp hl with rfl | hl
            · intro hmem
              rcases List.mem_cons.mp hmem with hh | hh
              · exact h hh.symm
              · exact ih x (by rw [hX]; exact List.mem_cons_self x xs) hh
            · exact ih l (by rw [hX]; exact List.mem_cons_of_mem x hl)

theorem splitNL_getLastD_no_nl (s : List Char) :
    '\n' ∉ (splitNL s).getLastD [] := by
  have h := splitNL_parts_no_nl s
  cases hX : splitNL s with
  | nil => exact absurd hX (splitNL_ne_nil s)
  | cons x xs =>
      rw [List.getLastD_eq_getLast?,
        List.getLast?_eq_getLast (x :: xs) (by simp)]
      simp only [Option.getD_some]
      exact h _ (by rw [hX]; exact List.getLast_mem (by simp))

theorem getLastD_append_right (xs ys : List (List Char)) (h : ys ≠ [])
    (d : List Char) : (xs ++ ys).getLastD d = ys.getLastD d := by
  rw [List.getLastD_eq_getLast?, List.getLastD_eq_getLast?,
    List.getLast?_append, List.getLast?_eq_getLast ys h]
  rfl

theorem processChunk_eq {α : Type} (parse : List Char → Option α)
    (buf chunk : List Char) (acc : List α) :
    processChunk parse (buf, acc) chunk =
      ((splitNL (buf ++ chunk)).getLastD [],
       acc ++ ((splitNL (buf ++ chunk)).dropLast).filterMap
         (handleLine parse)) := rfl

theorem foldl_processChunk {α : Type} (parse : List Char → Option α) :
    ∀ (chunks : List (List Char)) (buf : List Char) (acc : List α),
      '\n' ∉ buf →
      List.foldl (processChunk parse) (buf, acc) chunks =
        ((splitNL (buf ++ chunks.flatten)).getLastD [],
         acc ++ ((splitNL (buf ++ chunks.flatten)).dropLast).filterMap
           (handleLine parse)) := by
  intro chunks
  induction chunks with
  | nil =>
      intro buf acc hbuf
      rw [List.foldl_nil, List.flatten_nil, List.append_nil,
        splitNL_single buf hbuf]
      simp
  | cons ch rest ih =>
      intro buf acc hbuf
      rw [List.foldl_cons, processChunk_eq,
        ih _ _ (splitNL_getLastD_no_nl (buf ++ ch))]
      rw [show buf ++ (ch :: rest).flatten = (buf ++ ch) ++ rest.flatten from
        by rw [List.flatten_cons, List.append_assoc]]
      rw [splitNL_append (buf ++ ch) rest.flatten]
      rw [splitNL_append ((splitNL (buf ++ ch)).getLastD []) rest.flatten]
      rw [splitNL_single _ (splitNL_getLastD_no_nl (buf ++ ch))]
      rw [glue_single_left]
      rw [show glue (splitNL (buf ++ ch)) (splitNL rest.flatten) =
          (splitNL (buf ++ ch)).dropLast ++
            (((splitNL (buf ++ ch)).getLastD [] ++
                (splitNL rest.flatten).headD []) ::
              (splitNL rest.flatten).tail) from rfl]
      rw [Prod.mk.injEq]
      constructor
      · rw [getLastD_append_right _ _ (by simp)]
      · rw [List.dropLast_append_of_ne_nil _ (by simp), List.filterMap_append,
          List.append_assoc]

/-- Claim C10: the streaming consumer of sendMessage is robust to malformed
input: over any sequence of received chunks it handles exactly the complete
lines of the concatenated input, each at most once, keeping the trailing
incomplete line buffered; only lines beginning with the data marker reach the
payload parser; and a payload that fails to parse yields nothing, leaving the
loop to continue. -/
theorem sse_consumer_spec {α : Type} (parse : List Char → Option α)
    (chunks : List (List Char)) :
    processStream parse chunks =
      ((splitNL chunks.flatten).getLastD [],
       ((splitNL chunks.flatten).dropLast).filterMap (handleLine parse)) ∧
    (∀ line : List Char, startsWithL dataMarker line = false →
      handleLine parse line = none) ∧
    (∀ line : List Char, parse (line.drop 6) = none →
      handleLine parse line = none) := by
  refine ⟨?_, ?_, ?_⟩
  · have h := foldl_processChunk parse chunks [] [] (by simp)
    simpa [processStream] using h
  · intro line hline
    simp [handleLine, hline]
  · intro line hline
    unfold handleLine
    split_ifs with hs
    · exact hline
    · rfl

/-- Witness for C10: the claim at a concrete parser and chunk sequence. -/
theorem sse_consumer_spec_witness :
    processStream (fun l => if l.isEmpty then none else some (String.mk l))
        ["data: a\nda".data, "ta: b\nnope\n".data, "data: tail".data] =
      ((splitNL (["data: a\nda".data, "ta: b\nnope\n".data,
          "data: tail".data] : List (List Char)).flatten).getLastD [],
       ((splitNL (["data: a\nda".data, "ta: b\nnope\n".data,
          "data: tail".data] : List (List Char)).flatten).dropLast).filterMap
         (handleLine (fun l => if l.isEmpty then none
            else some (String.mk l)))) ∧
    (∀ line : List Char, startsWithL dataMarker line = false →
      handleLine (fun l => if l.isEmpty then none else some (String.mk l))
        line = none) ∧
    (∀ line : List Char,
      (fun l => if l.isEmpty then none else some (String.mk l))
          (line.drop 6) = none →
      handleLine (fun l => if l.isEmpty then none else some (String.mk l))
        line = none) :=
  sse_consumer_spec (fun l => if l.isEmpty then none else some (String.mk l))
    ["data: a\nda".data, "ta: b\nnope\n".data, "data: tail".data]
